import Mathlib

/-!
Verification of the divortio-logdo request-logging pipeline.

The definitions below are a shallow embedding of the source: the LogBatcher
durable object (src/logDO.mjs, dead-letter variant), the logger
(src/logger.mjs), the filter compiler (src/filter/filterManager.mjs together
with src/filter/filterOperators.mjs and the filter schema), the retention
pruner (src/filter/pruneRetention.mjs) and the CRC32 helper (src/lib/crc32.js).

JavaScript Map objects are modelled as insertion-ordered association lists;
asynchronous store and schema-initialization outcomes are supplied as boolean
oracles; records appended by addLog calls that interleave into a suspended
flush are supplied as an explicit list parameter.
-/

namespace Divortio

/-! ### JavaScript Map as an insertion-ordered association list -/

/-- JS Map.get modelled on an insertion-ordered association list. -/
def mapGet {α : Type} : List (String × α) → String → Option α
  | [], _ => none
  | p :: rest, k => if p.1 = k then some p.2 else mapGet rest k

/-- JS Map.set: replace in place when the key is present, else append at the end. -/
def mapSet {α : Type} : List (String × α) → String → α → List (String × α)
  | [], k, v => [(k, v)]
  | p :: rest, k, v => if p.1 = k then (k, v) :: rest else p :: mapSet rest k v

/-- JS Map.delete. -/
def mapDelete {α : Type} : List (String × α) → String → List (String × α)
  | [], _ => []
  | p :: rest, k => if p.1 = k then mapDelete rest k else p :: mapDelete rest k

theorem mapGet_mapSet_self {α : Type} (m : List (String × α)) (k : String) (v : α) :
    mapGet (mapSet m k v) k = some v := by
  induction m with
  | nil => simp [mapGet, mapSet]
  | cons p rest ih =>
    by_cases hp : p.1 = k
    · simp [mapGet, mapSet, hp]
    · simp [mapGet, mapSet, hp, ih]

theorem mapGet_mapSet_ne {α : Type} (m : List (String × α)) (k k' : String) (v : α)
    (h : k' ≠ k) : mapGet (mapSet m k v) k' = mapGet m k' := by
  induction m with
  | nil => simp [mapGet, mapSet, Ne.symm h]
  | cons p rest ih =>
    by_cases hp : p.1 = k
    · have : ¬(k = k') := fun hc => h hc.symm
      simp [mapGet, mapSet, hp, this, hp ▸ this]
    · by_cases hk' : p.1 = k'
      · simp [mapGet, mapSet, hp, hk', h]
      · simp [mapGet, mapSet, hp, hk', ih]

theorem mapGet_mapDelete_self {α : Type} (m : List (String × α)) (k : String) :
    mapGet (mapDelete m k) k = none := by
  induction m with
  | nil => simp [mapGet, mapDelete]
  | cons p rest ih =>
    by_cases hp : p.1 = k
    · simp [mapDelete, hp, ih]
    · simp [mapGet, mapDelete, hp, ih]

theorem mapGet_mapDelete_ne {α : Type} (m : List (String × α)) (k k' : String)
    (h : k' ≠ k) : mapGet (mapDelete m k) k' = mapGet m k' := by
  induction m with
  | nil => simp [mapDelete]
  | cons p rest ih =>
    by_cases hp : p.1 = k
    · have : ¬(p.1 = k') := by rw [hp]; exact fun hc => h hc.symm
      simp [mapGet, mapDelete, hp, this, ih, Ne.symm h]
    · by_cases hk' : p.1 = k'
      · simp [mapGet, mapDelete, hp, hk', h]
      · simp [mapGet, mapDelete, hp, hk', ih]


/-! ### The LogBatcher durable object (src/logDO.mjs, dead-letter variant)

State components mirror the fields of the LogBatcher class: the per-table
in-memory batches, the per-table failure counters, the memoized
schema-initialization promises, and the pending storage alarm. Records are
kept abstract in the type parameter R; request values in Req. -/

/-- A compiled log route as produced by logPlanManager and consumed by the
batcher and the logger. The filter is the compiled predicate; evaluating it
may throw (Except.error), as a JS closure can. Schema and retention fields
are irrelevant to the claims below and are omitted from this embedding. -/
structure CompiledRoute (Req : Type) where
  tableName : String
  filter : Req → Except Unit Bool

/-- In-memory and durable state of one LogBatcher instance. -/
structure BatcherState (R : Type) where
  batches : List (String × List R)
  failureCounts : List (String × Nat)
  initMemo : List (String × Bool)
  alarmPending : Option Nat
deriving Repr, DecidableEq

def MAX_RETRIES : Nat := 3

/-- Outcome of awaiting this.initialize(route): the memoized promise outcome
when one exists for the table, else the fresh schema-initialization outcome
initOk supplied by the oracle (true: initDB and the fingerprint put succeed;
false: the promise rejects). -/
def initResult (memo : List (String × Bool)) (tableName : String) (initOk : Bool) : Bool :=
  (mapGet memo tableName).getD initOk

/-- initialize stores the created promise in initPromises before its outcome
is known; a rejected promise stays memoized exactly like a fulfilled one. -/
def initMemoAfter (memo : List (String × Bool)) (tableName : String) (initOk : Bool) :
    List (String × Bool) :=
  match mapGet memo tableName with
  | some _ => memo
  | none => mapSet memo tableName initOk

/-- Result of one run of writeBatchToD1: the state after the call, whether
the call terminated by a propagating exception (the awaited initialize
rejected), the rows that the store received, and the fire-and-forget
key-value writes requested for the failed-batch diagnostic and for the
dead-letter namespace (key paired with the batch payload). -/
structure WriteOutcome (R : Type) where
  st : BatcherState R
  threw : Bool
  submitted : List R
  failedBatchPuts : List (String × List R)
  deadLetterPuts : List (String × List R)
deriving Repr

/-- Shallow embedding of LogBatcher writeBatchToD1 (dead-letter variant).
The method claims the buffer (this.batches.set(tableName, [])), awaits
initialize, submits one INSERT per record as a single store batch, and on
failure either re-prepends the claimed batch or, when the per-table failure
count reaches MAX_RETRIES, emits a single dead-letter write under the key
deadletter_tableName_iso and clears the counter. initOk and writeOk are the
oracle outcomes of the schema initialization and of the store batch call;
addedDuringFlush are the records that interleaved addLog calls append to the
table buffer while this flush is suspended at its await points; iso is the
ISO-8601 timestamp the dead-letter key embeds. -/
def writeBatchToD1 {Req R : Type} (route : CompiledRoute Req) (st : BatcherState R)
    (initOk writeOk : Bool) (addedDuringFlush : List R) (iso : String) : WriteOutcome R :=
  let tableName := route.tableName
  let batchToWrite := (mapGet st.batches tableName).getD []
  if batchToWrite.isEmpty then
    { st := st, threw := false, submitted := [], failedBatchPuts := [], deadLetterPuts := [] }
  else
    let st1 := { st with batches := mapSet st.batches tableName addedDuringFlush }
    let st2 := { st1 with initMemo := initMemoAfter st1.initMemo tableName initOk }
    if initResult st.initMemo tableName initOk = false then
      { st := st2, threw := true, submitted := [], failedBatchPuts := [], deadLetterPuts := [] }
    else if writeOk then
      { st := { st2 with failureCounts := mapDelete st2.failureCounts tableName },
        threw := false, submitted := batchToWrite,
        failedBatchPuts := [], deadLetterPuts := [] }
    else
      let failures := (mapGet st2.failureCounts tableName).getD 0 + 1
      if MAX_RETRIES ≤ failures then
        { st := { st2 with failureCounts := mapDelete st2.failureCounts tableName },
          threw := false, submitted := [],
          failedBatchPuts := [(tableName, batchToWrite)],
          deadLetterPuts := [("deadletter_" ++ tableName ++ "_" ++ iso, batchToWrite)] }
      else
        let existingBatch := (mapGet st2.batches tableName).getD []
        { st := { st2 with
                    failureCounts := mapSet st2.failureCounts tableName failures,
                    batches := mapSet st2.batches tableName (batchToWrite ++ existingBatch) },
          threw := false, submitted := [],
          failedBatchPuts := [(tableName, batchToWrite)], deadLetterPuts := [] }

/-- C1. At-most-once dead-letter: when a store batch write fails and the
per-table failure counter stands at MAX_RETRIES minus one, the flush emits
exactly one dead-letter write, keyed deadletter_tableName_iso and carrying
exactly the failed batch; the failure counter for the table reads zero
afterwards; and the failed batch is not re-enqueued: the buffer holds only
the records that arrived during the flush. -/
theorem batch_deadletter_exactly_once {Req R : Type} (route : CompiledRoute Req)
    (st : BatcherState R) (initOk : Bool) (added : List R) (iso : String)
    (hB : (mapGet st.batches route.tableName).getD [] ≠ [])
    (hInit : initResult st.initMemo route.tableName initOk = true)
    (hF : (mapGet st.failureCounts route.tableName).getD 0 = MAX_RETRIES - 1) :
    (writeBatchToD1 route st initOk false added iso).deadLetterPuts =
      [("deadletter_" ++ route.tableName ++ "_" ++ iso,
        (mapGet st.batches route.tableName).getD [])] ∧
    (mapGet (writeBatchToD1 route st initOk false added iso).st.failureCounts
      route.tableName).getD 0 = 0 ∧
    mapGet (writeBatchToD1 route st initOk false added iso).st.batches route.tableName =
      some added := by
  have hBe : ((mapGet st.batches route.tableName).getD []).isEmpty = false := by
    cases hc : (mapGet st.batches route.tableName).getD [] with
    | nil => exact absurd hc hB
    | cons a l => rfl
  have hcount :
      (mapGet (initMemoAfter st.initMemo route.tableName initOk) route.tableName).getD initOk
        = true := by
    simp only [initMemoAfter]
    cases hm : mapGet st.initMemo route.tableName with
    | none => simpa [mapGet_mapSet_self] using by simpa [initResult, hm] using hInit
    | some b => simpa [hm] using by simpa [initResult, hm] using hInit
  simp only [writeBatchToD1, hBe, Bool.false_eq_true, if_false, hInit, Bool.true_eq_false]
  have hF3 : (mapGet st.failureCounts route.tableName).getD 0 + 1 = MAX_RETRIES := by
    rw [hF]; rfl
  simp only [hF3, le_refl, if_true, if_false]
  refine ⟨trivial, ?_, ?_⟩
  · simp [mapGet_mapDelete_self]
  · simp [mapGet_mapSet_self]

/-- Closed witness for batch_deadletter_exactly_once at a concrete state. -/
theorem batch_deadletter_exactly_once_witness :
    let route : CompiledRoute Unit := ⟨"t1", fun _ => Except.ok true⟩
    let st : BatcherState Nat :=
      { batches := [("t1", [7, 8])], failureCounts := [("t1", 2)],
        initMemo := [("t1", true)], alarmPending := none }
    (writeBatchToD1 route st true false [9] "2026-01-01T00:00:00.000Z").deadLetterPuts =
      [("deadletter_t1_2026-01-01T00:00:00.000Z", [7, 8])] ∧
    (mapGet (writeBatchToD1 route st true false [9]
      "2026-01-01T00:00:00.000Z").st.failureCounts "t1").getD 0 = 0 ∧
    mapGet (writeBatchToD1 route st true false [9]
      "2026-01-01T00:00:00.000Z").st.batches "t1" = some [9] := by
  have h := batch_deadletter_exactly_once
    (R := Nat) (⟨"t1", fun _ => Except.ok true⟩ : CompiledRoute Unit)
    { batches := [("t1", [7, 8])], failureCounts := [("t1", 2)],
      initMemo := [("t1", true)], alarmPending := none }
    true [9] "2026-01-01T00:00:00.000Z"
    (by decide) (by decide) (by decide)
  simpa using h

/-! ### addLog -/

/-- Result of one addLog call: the new state plus the tables for which a
size-triggered flush was scheduled fire-and-forget through ctx.waitUntil. -/
structure AddResult (R : Type) where
  st : BatcherState R
  flushTriggers : List String
deriving Repr

/-- One iteration of the for-loop in addLog: create the table buffer when
absent, push the record, and record a flush trigger when the buffer has
reached maxBatchSize. -/
def addLogFold {Req R : Type} (maxBatchSize : Nat) (logData : R)
    (acc : List (String × List R) × List String) (route : CompiledRoute Req) :
    List (String × List R) × List String :=
  let t := route.tableName
  let batches0 := if (mapGet acc.1 t).isSome then acc.1 else mapSet acc.1 t []
  let batch := ((mapGet batches0 t).getD []) ++ [logData]
  (mapSet batches0 t batch,
   if maxBatchSize ≤ batch.length then acc.2 ++ [t] else acc.2)

/-- Shallow embedding of LogBatcher addLog: append the record to the buffer
of every matched route, then arm the storage alarm to now plus the batch
interval (re-timing any pending alarm). -/
def addLog {Req R : Type} (st : BatcherState R) (logData : R)
    (matchedRoutes : List (CompiledRoute Req)) (now batchIntervalMs maxBatchSize : Nat) :
    AddResult R :=
  let res := matchedRoutes.foldl (addLogFold maxBatchSize logData) (st.batches, [])
  { st := { st with batches := res.1, alarmPending := some (now + batchIntervalMs) },
    flushTriggers := res.2 }

theorem addLogFold_get_self {Req R : Type} (maxBatchSize : Nat) (logData : R)
    (acc : List (String × List R) × List String) (route : CompiledRoute Req) :
    mapGet (addLogFold maxBatchSize logData acc route).1 route.tableName =
      some ((mapGet acc.1 route.tableName).getD [] ++ [logData]) := by
  simp only [addLogFold]
  cases hc : mapGet acc.1 route.tableName with
  | some b => simp [hc, mapGet_mapSet_self]
  | none => simp [hc, mapGet_mapSet_self]

theorem addLogFold_get_ne {Req R : Type} (maxBatchSize : Nat) (logData : R)
    (acc : List (String × List R) × List String) (route : CompiledRoute Req)
    (t : String) (h : t ≠ route.tableName) :
    mapGet (addLogFold maxBatchSize logData acc route).1 t = mapGet acc.1 t := by
  simp only [addLogFold]
  cases hc : mapGet acc.1 route.tableName with
  | some b => simp [hc, mapGet_mapSet_ne _ _ _ _ h]
  | none => simp [hc, mapGet_mapSet_ne _ _ _ _ h]

theorem addLog_foldl_get_not_mem {Req R : Type} (maxBatchSize : Nat) (logData : R)
    (routes : List (CompiledRoute Req)) (acc : List (String × List R) × List String)
    (t : String) (h : t ∉ routes.map (fun r => r.tableName)) :
    mapGet (routes.foldl (addLogFold maxBatchSize logData) acc).1 t = mapGet acc.1 t := by
  induction routes generalizing acc with
  | nil => rfl
  | cons r rest ih =>
    simp only [List.map_cons, List.mem_cons, not_or] at h
    rw [List.foldl_cons, ih _ h.2, addLogFold_get_ne _ _ _ _ _ h.1]

theorem addLog_foldl_get_mem {Req R : Type} (maxBatchSize : Nat) (logData : R)
    (routes : List (CompiledRoute Req)) (acc : List (String × List R) × List String)
    (route : CompiledRoute Req) (hmem : route ∈ routes)
    (hnodup : (routes.map (fun r => r.tableName)).Nodup) :
    mapGet (routes.foldl (addLogFold maxBatchSize logData) acc).1 route.tableName =
      some ((mapGet acc.1 route.tableName).getD [] ++ [logData]) := by
  induction routes generalizing acc with
  | nil => cases hmem
  | cons r rest ih =>
    simp only [List.map_cons, List.nodup_cons] at hnodup
    rcases List.mem_cons.mp hmem with h | h
    · subst h
      rw [List.foldl_cons,
        addLog_foldl_get_not_mem _ _ _ _ _ hnodup.1, addLogFold_get_self]
    · have hne : route.tableName ≠ r.tableName := by
        intro hc
        exact hnodup.1 (hc ▸ List.mem_map_of_mem (fun x => x.tableName) h)
      rw [List.foldl_cons, ih _ h hnodup.2, addLogFold_get_ne _ _ _ _ _ hne]

/-! ### Single-table flush and retry trace (for the FIFO guarantee)

A trace interleaves addLog calls for one fixed route with flush attempts
whose store and schema-initialization outcomes come from the operation
itself; records arriving while a flush is suspended ride on the flush
operation. The ghost fields arrivals and submitted record the order in which
records entered addLog and the order in which the store received them. -/

inductive BatchOp (R : Type) where
  | add (r : R) (now : Nat)
  | flush (initOk writeOk : Bool) (added : List R) (iso : String)

structure TraceState (R : Type) where
  st : BatcherState R
  submitted : List R
  arrivals : List R
  deadLettered : Bool
  halted : Bool

def traceStep {Req R : Type} (route : CompiledRoute Req)
    (batchIntervalMs maxBatchSize : Nat) (ts : TraceState R) :
    BatchOp R → TraceState R
  | .add r now =>
      { ts with st := (addLog ts.st r [route] now batchIntervalMs maxBatchSize).st,
                arrivals := ts.arrivals ++ [r] }
  | .flush initOk writeOk added iso =>
      if ((mapGet ts.st.batches route.tableName).getD []).isEmpty then ts
      else
        let out := writeBatchToD1 route ts.st initOk writeOk added iso
        { st := out.st,
          submitted := ts.submitted ++ out.submitted,
          arrivals := ts.arrivals ++ added,
          deadLettered := ts.deadLettered || !out.deadLetterPuts.isEmpty,
          halted := ts.halted || out.threw }

def runTrace {Req R : Type} (route : CompiledRoute Req)
    (batchIntervalMs maxBatchSize : Nat) (ts : TraceState R) (ops : List (BatchOp R)) :
    TraceState R :=
  ops.foldl (traceStep route batchIntervalMs maxBatchSize) ts

theorem traceStep_deadLettered_mono {Req R : Type} (route : CompiledRoute Req)
    (batchIntervalMs maxBatchSize : Nat) (ts : TraceState R) (op : BatchOp R)
    (h : (traceStep route batchIntervalMs maxBatchSize ts op).deadLettered = false) :
    ts.deadLettered = false := by
  cases op with
  | add r now => exact h
  | flush i w a iso =>
    simp only [traceStep] at h
    by_cases hc : ((mapGet ts.st.batches route.tableName).getD []).isEmpty
    · simpa [hc] using h
    · simp only [hc, Bool.false_eq_true, if_false, Bool.or_eq_false_iff] at h
      exact h.1

theorem traceStep_halted_mono {Req R : Type} (route : CompiledRoute Req)
    (batchIntervalMs maxBatchSize : Nat) (ts : TraceState R) (op : BatchOp R)
    (h : (traceStep route batchIntervalMs maxBatchSize ts op).halted = false) :
    ts.halted = false := by
  cases op with
  | add r now => exact h
  | flush i w a iso =>
    simp only [traceStep] at h
    by_cases hc : ((mapGet ts.st.batches route.tableName).getD []).isEmpty
    · simpa [hc] using h
    · simp only [hc, Bool.false_eq_true, if_false, Bool.or_eq_false_iff] at h
      exact h.1

theorem runTrace_deadLettered_mono {Req R : Type} (route : CompiledRoute Req)
    (batchIntervalMs maxBatchSize : Nat) (ts : TraceState R) (ops : List (BatchOp R))
    (h : (runTrace route batchIntervalMs maxBatchSize ts ops).deadLettered = false) :
    ts.deadLettered = false := by
  induction ops generalizing ts with
  | nil => exact h
  | cons op rest ih =>
    exact traceStep_deadLettered_mono _ _ _ _ _ (ih _ h)

theorem runTrace_halted_mono {Req R : Type} (route : CompiledRoute Req)
    (batchIntervalMs maxBatchSize : Nat) (ts : TraceState R) (ops : List (BatchOp R))
    (h : (runTrace route batchIntervalMs maxBatchSize ts ops).halted = false) :
    ts.halted = false := by
  induction ops generalizing ts with
  | nil => exact h
  | cons op rest ih =>
    exact traceStep_halted_mono _ _ _ _ _ (ih _ h)

theorem writeBatchToD1_throw_spec {Req R : Type} (route : CompiledRoute Req)
    (st : BatcherState R) (initOk writeOk : Bool) (added : List R) (iso : String)
    (hBe : ((mapGet st.batches route.tableName).getD []).isEmpty = false)
    (hInit : initResult st.initMemo route.tableName initOk = false) :
    (writeBatchToD1 route st initOk writeOk added iso).threw = true ∧
    mapGet (writeBatchToD1 route st initOk writeOk added iso).st.batches route.tableName =
      some added := by
  simp [writeBatchToD1, hBe, hInit, mapGet_mapSet_self]

theorem writeBatchToD1_success_spec {Req R : Type} (route : CompiledRoute Req)
    (st : BatcherState R) (initOk : Bool) (added : List R) (iso : String)
    (hBe : ((mapGet st.batches route.tableName).getD []).isEmpty = false)
    (hInit : initResult st.initMemo route.tableName initOk = true) :
    (writeBatchToD1 route st initOk true added iso).threw = false ∧
    (writeBatchToD1 route st initOk true added iso).submitted =
      (mapGet st.batches route.tableName).getD [] ∧
    (writeBatchToD1 route st initOk true added iso).deadLetterPuts = [] ∧
    mapGet (writeBatchToD1 route st initOk true added iso).st.batches route.tableName =
      some added ∧
    mapGet (writeBatchToD1 route st initOk true added iso).st.failureCounts
      route.tableName = none := by
  simp [writeBatchToD1, hBe, hInit, mapGet_mapSet_self, mapGet_mapDelete_self]

theorem writeBatchToD1_retry_spec {Req R : Type} (route : CompiledRoute Req)
    (st : BatcherState R) (initOk : Bool) (added : List R) (iso : String)
    (hBe : ((mapGet st.batches route.tableName).getD []).isEmpty = false)
    (hInit : initResult st.initMemo route.tableName initOk = true)
    (hc : (mapGet st.failureCounts route.tableName).getD 0 + 1 < MAX_RETRIES) :
    (writeBatchToD1 route st initOk false added iso).threw = false ∧
    (writeBatchToD1 route st initOk false added iso).submitted = [] ∧
    (writeBatchToD1 route st initOk false added iso).deadLetterPuts = [] ∧
    mapGet (writeBatchToD1 route st initOk false added iso).st.batches route.tableName =
      some ((mapGet st.batches route.tableName).getD [] ++ added) ∧
    mapGet (writeBatchToD1 route st initOk false added iso).st.failureCounts
      route.tableName = some ((mapGet st.failureCounts route.tableName).getD 0 + 1) := by
  have hn : ¬(MAX_RETRIES ≤ (mapGet st.failureCounts route.tableName).getD 0 + 1) :=
    Nat.not_le.mpr hc
  simp [writeBatchToD1, hBe, hInit, hn, mapGet_mapSet_self]

theorem writeBatchToD1_dead_spec {Req R : Type} (route : CompiledRoute Req)
    (st : BatcherState R) (initOk : Bool) (added : List R) (iso : String)
    (hBe : ((mapGet st.batches route.tableName).getD []).isEmpty = false)
    (hInit : initResult st.initMemo route.tableName initOk = true)
    (hc : MAX_RETRIES ≤ (mapGet st.failureCounts route.tableName).getD 0 + 1) :
    (writeBatchToD1 route st initOk false added iso).deadLetterPuts =
      [("deadletter_" ++ route.tableName ++ "_" ++ iso,
        (mapGet st.batches route.tableName).getD [])] := by
  simp [writeBatchToD1, hBe, hInit, hc]

/-- The per-table FIFO invariant: rows already received by the store,
followed by the rows still buffered, is exactly the arrival order. -/
def FifoInv {Req R : Type} (route : CompiledRoute Req) (ts : TraceState R) : Prop :=
  ts.submitted ++ (mapGet ts.st.batches route.tableName).getD [] = ts.arrivals

theorem traceStep_preserves_fifo {Req R : Type} (route : CompiledRoute Req)
    (batchIntervalMs maxBatchSize : Nat) (ts : TraceState R) (op : BatchOp R)
    (hP : FifoInv route ts)
    (hdl : (traceStep route batchIntervalMs maxBatchSize ts op).deadLettered = false)
    (hh : (traceStep route batchIntervalMs maxBatchSize ts op).halted = false) :
    FifoInv route (traceStep route batchIntervalMs maxBatchSize ts op) := by
  cases op with
  | add r now =>
    simp only [FifoInv, traceStep, addLog, List.foldl_cons, List.foldl_nil] at hP ⊢
    rw [addLogFold_get_self]
    simp only [Option.getD_some, ← List.append_assoc]
    rw [hP]
  | flush initOk writeOk added iso =>
    by_cases hc : ((mapGet ts.st.batches route.tableName).getD []).isEmpty
    · simpa [FifoInv, traceStep, hc] using hP
    · have hBe : ((mapGet ts.st.batches route.tableName).getD []).isEmpty = false := by
        simpa using hc
      simp only [traceStep, hBe, Bool.false_eq_true, if_false] at hdl hh ⊢
      simp only [Bool.or_eq_false_iff] at hdl hh
      simp only [FifoInv] at hP
      cases hInit : initResult ts.st.initMemo route.tableName initOk with
      | false =>
        exact absurd ((writeBatchToD1_throw_spec route ts.st initOk writeOk added iso
          hBe hInit).1) (by simp [hh.2])
      | true =>
        cases writeOk with
        | true =>
          obtain ⟨-, hsub, -, hbuf, -⟩ :=
            writeBatchToD1_success_spec route ts.st initOk added iso hBe hInit
          simp only [FifoInv, hsub, hbuf, Option.getD_some]
          rw [hP]
        | false =>
          rcases Nat.lt_or_ge
              ((mapGet ts.st.failureCounts route.tableName).getD 0 + 1) MAX_RETRIES with
            hlt | hge
          · obtain ⟨-, hsub, -, hbuf, -⟩ :=
              writeBatchToD1_retry_spec route ts.st initOk added iso hBe hInit hlt
            simp only [FifoInv, hsub, hbuf, Option.getD_some, List.append_nil]
            rw [← List.append_assoc, hP]
          · exact absurd (writeBatchToD1_dead_spec route ts.st initOk added iso hBe hInit hge)
              (by have := hdl.2; simp only [Bool.not_eq_false'] at this;
                  intro hcon; rw [hcon] at this; simp at this)

theorem runTrace_preserves_fifo {Req R : Type} (route : CompiledRoute Req)
    (batchIntervalMs maxBatchSize : Nat) (ts : TraceState R) (ops : List (BatchOp R))
    (hP : FifoInv route ts)
    (hdl : (runTrace route batchIntervalMs maxBatchSize ts ops).deadLettered = false)
    (hh : (runTrace route batchIntervalMs maxBatchSize ts ops).halted = false) :
    FifoInv route (runTrace route batchIntervalMs maxBatchSize ts ops) := by
  induction ops generalizing ts with
  | nil => exact hP
  | cons op rest ih =>
    have hdl1 := runTrace_deadLettered_mono route batchIntervalMs maxBatchSize _ rest hdl
    have hh1 := runTrace_halted_mono route batchIntervalMs maxBatchSize _ rest hh
    exact ih _ (traceStep_preserves_fifo route batchIntervalMs maxBatchSize ts op
      hP hdl1 hh1) hdl hh

/-- C2. FIFO within a table: a failed store write below the retry limit
re-prepends the claimed batch in front of whatever records arrived during
the flush; consequently, along any trace of addLog calls and flush attempts
for one table in which no flush reaches the dead-letter limit and no schema
initialization throws, the rows received by the store followed by the rows
still buffered are exactly the records in arrival order (so the store
receives rows in addLog order). -/
theorem fifo_within_table {Req R : Type} (route : CompiledRoute Req)
    (st : BatcherState R) (initOk : Bool) (added : List R) (iso : String)
    (batchIntervalMs maxBatchSize : Nat) (ops : List (BatchOp R)) (ts : TraceState R)
    (hB : (mapGet st.batches route.tableName).getD [] ≠ [])
    (hInit : initResult st.initMemo route.tableName initOk = true)
    (hcnt : (mapGet st.failureCounts route.tableName).getD 0 + 1 < MAX_RETRIES)
    (hP : FifoInv route ts)
    (hdl : (runTrace route batchIntervalMs maxBatchSize ts ops).deadLettered = false)
    (hh : (runTrace route batchIntervalMs maxBatchSize ts ops).halted = false) :
    mapGet (writeBatchToD1 route st initOk false added iso).st.batches route.tableName =
      some ((mapGet st.batches route.tableName).getD [] ++ added) ∧
    (runTrace route batchIntervalMs maxBatchSize ts ops).submitted ++
        (mapGet (runTrace route batchIntervalMs maxBatchSize ts ops).st.batches
          route.tableName).getD [] =
      (runTrace route batchIntervalMs maxBatchSize ts ops).arrivals := by
  have hBe : ((mapGet st.batches route.tableName).getD []).isEmpty = false := by
    cases hcase : (mapGet st.batches route.tableName).getD [] with
    | nil => exact absurd hcase hB
    | cons a l => rfl
  exact ⟨(writeBatchToD1_retry_spec route st initOk added iso hBe hInit hcnt).2.2.2.1,
    runTrace_preserves_fifo route batchIntervalMs maxBatchSize ts ops hP hdl hh⟩

/-- Closed witness for fifo_within_table: two records arrive, the first
flush attempt fails and re-prepends, the retried flush succeeds, and the
store has received both records in arrival order. -/
theorem fifo_within_table_witness :
    let route : CompiledRoute Unit := ⟨"t1", fun _ => Except.ok true⟩
    let st : BatcherState Nat :=
      { batches := [("t1", [1])], failureCounts := [], initMemo := [("t1", true)],
        alarmPending := none }
    let ts : TraceState Nat :=
      { st := { batches := [], failureCounts := [], initMemo := [("t1", true)],
                alarmPending := none },
        submitted := [], arrivals := [], deadLettered := false, halted := false }
    let ops : List (BatchOp Nat) :=
      [BatchOp.add 1 0, BatchOp.add 2 0,
       BatchOp.flush true false [3] "iso1", BatchOp.flush true true [] "iso2"]
    mapGet (writeBatchToD1 route st true false [5] "iso0").st.batches "t1" =
      some [1, 5] ∧
    (runTrace route 10000 200 ts ops).submitted ++
        (mapGet (runTrace route 10000 200 ts ops).st.batches "t1").getD [] =
      (runTrace route 10000 200 ts ops).arrivals := by
  have h := fifo_within_table (R := Nat)
    (⟨"t1", fun _ => Except.ok true⟩ : CompiledRoute Unit)
    { batches := [("t1", [1])], failureCounts := [], initMemo := [("t1", true)],
      alarmPending := none }
    true [5] "iso0" 10000 200
    [BatchOp.add 1 0, BatchOp.add 2 0,
     BatchOp.flush true false [3] "iso1", BatchOp.flush true true [] "iso2"]
    { st := { batches := [], failureCounts := [], initMemo := [("t1", true)],
              alarmPending := none },
      submitted := [], arrivals := [], deadLettered := false, halted := false }
    (by decide) (by decide) (by decide) (by rfl) (by decide) (by decide)
  simpa using h

/-- C4 counterexample. In writeBatchToD1 the buffer is claimed (set to the
empty array) before initialize is awaited, and the catch block that would
re-prepend only surrounds the store call; so when schema initialization
throws, the flush halts with the claimed records removed from the buffer
rather than re-prepended, contradicting the claim at this concrete input:
one buffered record for table t1, a fresh instance, and a rejecting
initialization. -/
theorem schema_init_throw_counterexample :
    let route : CompiledRoute Unit := ⟨"t1", fun _ => Except.ok true⟩
    let st : BatcherState Nat :=
      { batches := [("t1", [0])], failureCounts := [], initMemo := [],
        alarmPending := none }
    (writeBatchToD1 route st false false [] "iso").threw = true ∧
    mapGet (writeBatchToD1 route st false false [] "iso").st.batches "t1" = some [] ∧
    ¬ mapGet (writeBatchToD1 route st false false [] "iso").st.batches "t1" =
        some [0] := by
  decide

/-- C4 amended. When schema initialization throws during a flush of table T,
the flush halts (the exception propagates); the records claimed from T's
buffer are discarded from it, the buffer retaining only records that arrived
during the flush; the rejected initialization promise stays memoized for T;
and every later flush of T awaits that same memoized rejection instead of
re-running initialization, so it throws again whatever the fresh
initialization outcome would be. -/
theorem schema_init_throw_halts_flush {Req R : Type} (route : CompiledRoute Req)
    (st : BatcherState R) (initOk writeOk : Bool) (added : List R) (iso : String)
    (hB : (mapGet st.batches route.tableName).getD [] ≠ [])
    (hInit : initResult st.initMemo route.tableName initOk = false) :
    (writeBatchToD1 route st initOk writeOk added iso).threw = true ∧
    mapGet (writeBatchToD1 route st initOk writeOk added iso).st.batches
      route.tableName = some added ∧
    mapGet (writeBatchToD1 route st initOk writeOk added iso).st.initMemo
      route.tableName = some false ∧
    (∀ (st2 : BatcherState R) (initOk2 writeOk2 : Bool) (added2 : List R) (iso2 : String),
      mapGet st2.initMemo route.tableName = some false →
      (mapGet st2.batches route.tableName).getD [] ≠ [] →
      (writeBatchToD1 route st2 initOk2 writeOk2 added2 iso2).threw = true) := by
  have hBe : ((mapGet st.batches route.tableName).getD []).isEmpty = false := by
    cases hcase : (mapGet st.batches route.tableName).getD [] with
    | nil => exact absurd hcase hB
    | cons a l => rfl
  refine ⟨(writeBatchToD1_throw_spec route st initOk writeOk added iso hBe hInit).1,
    (writeBatchToD1_throw_spec route st initOk writeOk added iso hBe hInit).2, ?_, ?_⟩
  · have hmemo :
        mapGet (initMemoAfter st.initMemo route.tableName initOk) route.tableName =
          some false := by
      simp only [initMemoAfter]
      cases hm : mapGet st.initMemo route.tableName with
      | none =>
        have : initOk = false := by simpa [initResult, hm] using hInit
        simpa [this] using mapGet_mapSet_self st.initMemo route.tableName false
      | some b =>
        have : b = false := by simpa [initResult, hm] using hInit
        simpa [this] using hm
    simp [writeBatchToD1, hBe, hInit, hmemo]
  · intro st2 initOk2 writeOk2 added2 iso2 hmemo2 hB2
    have hBe2 : ((mapGet st2.batches route.tableName).getD []).isEmpty = false := by
      cases hcase : (mapGet st2.batches route.tableName).getD [] with
      | nil => exact absurd hcase hB2
      | cons a l => rfl
    have hInit2 : initResult st2.initMemo route.tableName initOk2 = false := by
      simp [initResult, hmemo2]
    exact (writeBatchToD1_throw_spec route st2 initOk2 writeOk2 added2 iso2 hBe2 hInit2).1

/-- Closed witness for schema_init_throw_halts_flush. -/
theorem schema_init_throw_halts_flush_witness :
    let route : CompiledRoute Unit := ⟨"t1", fun _ => Except.ok true⟩
    let st : BatcherState Nat :=
      { batches := [("t1", [4])], failureCounts := [], initMemo := [],
        alarmPending := none }
    (writeBatchToD1 route st false false [6] "iso").threw = true ∧
    mapGet (writeBatchToD1 route st false false [6] "iso").st.batches "t1" =
      some [6] ∧
    mapGet (writeBatchToD1 route st false false [6] "iso").st.initMemo "t1" =
      some false ∧
    (writeBatchToD1 route
      (writeBatchToD1 route st false false [6] "iso").st true true [] "iso2").threw =
      true := by
  intro route st
  have h := schema_init_throw_halts_flush route st
    false false [6] "iso" (by decide) (by decide)
  exact ⟨h.1, h.2.1, h.2.2.1,
    h.2.2.2 (writeBatchToD1 route st false false [6] "iso").st true true [] "iso2"
      h.2.2.1 (by decide)⟩

/-! ### The alarm handler, destructor, and retention check (for alarm arming)

Durable-object alarms are one-shot: the runtime clears the stored alarm when
it delivers alarm(); only a storage.setAlarm call arms a new one. Within the
batcher code, addLog is the only method that calls storage.setAlarm. -/

/-- The flush loop shared by alarm() and the destructor: for every non-empty
buffer whose route is found in the plan, run writeBatchToD1 (a buffer whose
route is missing is retained). The per-table oracle supplies each flush's
initialization outcome, store outcome and interleaved additions. -/
def flushAllBuffers {Req R : Type} (plan : List (CompiledRoute Req))
    (st : BatcherState R) (oracle : String → Bool × Bool × List R) (iso : String) :
    BatcherState R :=
  (st.batches.map Prod.fst).foldl (fun acc t =>
    if ((mapGet acc.batches t).getD []).isEmpty then acc
    else
      match plan.find? (fun r => r.tableName == t) with
      | some route =>
          (writeBatchToD1 route acc (oracle t).1 (oracle t).2.1 (oracle t).2.2 iso).st
      | none => acc) st

/-- Shallow embedding of LogBatcher alarm(): the runtime consumes the
pending alarm on delivery; the handler snapshots diagnostics fire-and-forget
(no state effect modelled), returns early when no log plan is set (buffers
kept), else flushes every non-empty buffer. It never calls setAlarm. -/
def alarmHandler {Req R : Type} (logPlan : Option (List (CompiledRoute Req)))
    (st : BatcherState R) (oracle : String → Bool × Bool × List R) (iso : String) :
    BatcherState R :=
  let st0 := { st with alarmPending := none }
  match logPlan with
  | none => st0
  | some plan => flushAllBuffers plan st0 oracle iso

/-- Shallow embedding of the destructor: best-effort drain of every
non-empty buffer when a plan is set. It neither consumes nor arms the alarm. -/
def destructorHandler {Req R : Type} (logPlan : Option (List (CompiledRoute Req)))
    (st : BatcherState R) (oracle : String → Bool × Bool × List R) (iso : String) :
    BatcherState R :=
  match logPlan with
  | none => st
  | some plan => flushAllBuffers plan st oracle iso

/-- The handlers a LogBatcher instance can run, with their oracle inputs.
runRetentionCheck touches durable storage and, when the pruning interval has
elapsed (due), runs initialize for the route's table; its batcher-state
effect is confined to the initialization memo. -/
inductive DOEvent (Req R : Type) where
  | evtAddLog (r : R) (routes : List (CompiledRoute Req)) (now : Nat)
  | evtFlush (route : CompiledRoute Req) (initOk writeOk : Bool) (added : List R)
      (iso : String)
  | evtAlarm (oracle : String → Bool × Bool × List R) (iso : String)
  | evtRetention (t : String) (initOk : Bool) (due : Bool)
  | evtDestructor (oracle : String → Bool × Bool × List R) (iso : String)

def isAddLogEvt {Req R : Type} : DOEvent Req R → Bool
  | .evtAddLog _ _ _ => true
  | _ => false

def doStep {Req R : Type} (logPlan : Option (List (CompiledRoute Req)))
    (batchIntervalMs maxBatchSize : Nat) (st : BatcherState R) :
    DOEvent Req R → BatcherState R
  | .evtAddLog r routes now => (addLog st r routes now batchIntervalMs maxBatchSize).st
  | .evtFlush route i w a iso => (writeBatchToD1 route st i w a iso).st
  | .evtAlarm oracle iso => alarmHandler logPlan st oracle iso
  | .evtRetention t i due =>
      if due then { st with initMemo := initMemoAfter st.initMemo t i } else st
  | .evtDestructor oracle iso => destructorHandler logPlan st oracle iso

theorem writeBatchToD1_alarmPending {Req R : Type} (route : CompiledRoute Req)
    (st : BatcherState R) (i w : Bool) (a : List R) (iso : String) :
    (writeBatchToD1 route st i w a iso).st.alarmPending = st.alarmPending := by
  simp only [writeBatchToD1]
  repeat' split
  all_goals rfl

theorem flushAllBuffers_fold_alarmPending {Req R : Type}
    (plan : List (CompiledRoute Req)) (oracle : String → Bool × Bool × List R)
    (iso : String) (ks : List String) (acc : BatcherState R) :
    (ks.foldl (fun acc t =>
      if ((mapGet acc.batches t).getD []).isEmpty then acc
      else
        match plan.find? (fun r => r.tableName == t) with
        | some route =>
            (writeBatchToD1 route acc (oracle t).1 (oracle t).2.1 (oracle t).2.2 iso).st
        | none => acc) acc).alarmPending = acc.alarmPending := by
  induction ks generalizing acc with
  | nil => rfl
  | cons t rest ih =>
    rw [List.foldl_cons, ih]
    by_cases hc : ((mapGet acc.batches t).getD []).isEmpty
    · simp [hc]
    · simp only [hc, Bool.false_eq_true, if_false]
      cases plan.find? (fun r => r.tableName == t) with
      | some route => simp [writeBatchToD1_alarmPending]
      | none => rfl

theorem flushAllBuffers_alarmPending {Req R : Type} (plan : List (CompiledRoute Req))
    (st : BatcherState R) (oracle : String → Bool × Bool × List R) (iso : String) :
    (flushAllBuffers plan st oracle iso).alarmPending = st.alarmPending :=
  flushAllBuffers_fold_alarmPending plan oracle iso _ st

/-- C10. The alarm handler never arms a new alarm: after alarm() no alarm is
pending; and from any state with no pending alarm, any sequence of handler
runs that contains no addLog call leaves no alarm pending, so a batch
re-prepended by a failed flush is flushed by a new alarm only after a later
addLog (which always arms the alarm, and whose size trigger is the other
flush path) occurs on the instance. -/
theorem alarm_never_rearms {Req R : Type}
    (logPlan : Option (List (CompiledRoute Req))) (batchIntervalMs maxBatchSize : Nat)
    (st : BatcherState R) (oracle : String → Bool × Bool × List R) (iso : String) :
    (alarmHandler logPlan st oracle iso).alarmPending = none ∧
    (∀ (evts : List (DOEvent Req R)) (st2 : BatcherState R),
      st2.alarmPending = none →
      (∀ e ∈ evts, isAddLogEvt e = false) →
      (evts.foldl (doStep logPlan batchIntervalMs maxBatchSize) st2).alarmPending =
        none) := by
  constructor
  · simp only [alarmHandler]
    cases logPlan with
    | none => rfl
    | some plan => rw [flushAllBuffers_alarmPending]
  · intro evts
    induction evts with
    | nil => intro st2 h0 _; exact h0
    | cons e rest ih =>
      intro st2 h0 hno
      rw [List.foldl_cons]
      refine ih _ ?_ (fun e he => hno e (List.mem_cons_of_mem _ he))
      have hne := hno e (List.mem_cons_self _ _)
      cases e with
      | evtAddLog r routes now => exact absurd hne (by simp [isAddLogEvt])
      | evtFlush route i w a iso2 =>
        simpa [doStep, writeBatchToD1_alarmPending] using h0
      | evtAlarm oracle2 iso2 =>
        simp only [doStep, alarmHandler]
        cases logPlan with
        | none => rfl
        | some plan => rw [flushAllBuffers_alarmPending]
      | evtRetention t i due =>
        simp only [doStep]
        by_cases hdue : due = true
        · simpa [hdue] using h0
        · simp only [Bool.not_eq_true] at hdue
          simpa [hdue] using h0
      | evtDestructor oracle2 iso2 =>
        simp only [doStep, destructorHandler]
        cases logPlan with
        | none => exact h0
        | some plan => rw [flushAllBuffers_alarmPending]; exact h0

/-- Closed witness for alarm_never_rearms: a failed alarm-driven flush
re-prepends a batch, and a following flush, retention check and destructor
leave the alarm unarmed. -/
theorem alarm_never_rearms_witness :
    let route : CompiledRoute Unit := ⟨"t1", fun _ => Except.ok true⟩
    let plan : Option (List (CompiledRoute Unit)) := some [route]
    let st : BatcherState Nat :=
      { batches := [("t1", [1])], failureCounts := [], initMemo := [("t1", true)],
        alarmPending := some 99 }
    let oracle : String → Bool × Bool × List Nat := fun _ => (true, false, [])
    let evts : List (DOEvent Unit Nat) :=
      [DOEvent.evtFlush route true false [] "i1", DOEvent.evtRetention "t1" true true,
       DOEvent.evtDestructor oracle "i2"]
    (alarmHandler plan st oracle "i0").alarmPending = none ∧
    (evts.foldl (doStep plan 10000 200)
      (alarmHandler plan st oracle "i0")).alarmPending = none := by
  intro route plan st oracle evts
  have h := alarm_never_rearms plan 10000 200 st oracle "i0"
  exact ⟨h.1, h.2 evts _ h.1 (by decide)⟩

/-! ### The logger (src/logger.mjs) -/

/-- logPlan.filter evaluating each route's compiled predicate left to right;
JS Array.prototype.filter runs the callback eagerly, so a throwing predicate
propagates out of logRequest. -/
def filterRoutes {Req : Type} :
    List (CompiledRoute Req) → Req → Except Unit (List (CompiledRoute Req))
  | [], _ => .ok []
  | r :: rs, req =>
    match r.filter req with
    | .error e => .error e
    | .ok b =>
      match filterRoutes rs req with
      | .error e => .error e
      | .ok rest => .ok (if b then r :: rest else rest)

/-- Shallow embedding of logRequest followed by the dispatched addLog on the
selected batcher instance: evaluate every compiled route predicate, return
unchanged when no route matches, else append the assembled record (logData)
to each matched buffer. The waitUntil background hop, record assembly and
shard selection in sendLog sit between the two halves and are modelled
separately for the entrypoint claim. -/
def logRequest {Req R : Type} (request : Req) (logData : R)
    (logPlan : List (CompiledRoute Req)) (st : BatcherState R)
    (now batchIntervalMs maxBatchSize : Nat) : Except Unit (BatcherState R) :=
  match filterRoutes logPlan request with
  | .error e => .error e
  | .ok matchedRoutes =>
    if matchedRoutes.isEmpty then .ok st
    else .ok (addLog st logData matchedRoutes now batchIntervalMs maxBatchSize).st

theorem filterRoutes_mem_filter_true {Req : Type} (plan : List (CompiledRoute Req))
    (req : Req) (matched : List (CompiledRoute Req))
    (h : filterRoutes plan req = .ok matched) :
    ∀ rt ∈ matched, rt.filter req = .ok true := by
  induction plan generalizing matched with
  | nil =>
    simp only [filterRoutes] at h
    cases h
    intro rt hrt; cases hrt
  | cons r rs ih =>
    simp only [filterRoutes] at h
    cases hf : r.filter req with
    | error e => rw [hf] at h; cases h
    | ok b =>
      rw [hf] at h
      cases hrest : filterRoutes rs req with
      | error e => rw [hrest] at h; cases h
      | ok rest =>
        rw [hrest] at h
        cases h
        intro rt hrt
        cases b with
        | true =>
          rcases List.mem_cons.mp (by simpa using hrt) with heq | hmem
          · subst heq; exact hf
          · exact ih rest hrest rt hmem
        | false => exact ih rest hrest rt (by simpa using hrt)

theorem filterRoutes_mem_of_true {Req : Type} (plan : List (CompiledRoute Req))
    (req : Req) (matched : List (CompiledRoute Req))
    (h : filterRoutes plan req = .ok matched) :
    ∀ rt ∈ plan, rt.filter req = .ok true → rt ∈ matched := by
  induction plan generalizing matched with
  | nil => intro rt hrt; cases hrt
  | cons r rs ih =>
    simp only [filterRoutes] at h
    cases hf : r.filter req with
    | error e => rw [hf] at h; cases h
    | ok b =>
      rw [hf] at h
      cases hrest : filterRoutes rs req with
      | error e => rw [hrest] at h; cases h
      | ok rest =>
        rw [hrest] at h
        cases h
        intro rt hrt htrue
        rcases List.mem_cons.mp hrt with heq | hmem
        · subst heq
          have hb : b = true := by
            rw [hf] at htrue; exact (Except.ok.injEq _ _ ▸ htrue : b = true)
          subst hb
          simp
        · have := ih rest hrest rt hmem htrue
          cases b <;> simp [this]

theorem filterRoutes_sublist {Req : Type} (plan : List (CompiledRoute Req))
    (req : Req) (matched : List (CompiledRoute Req))
    (h : filterRoutes plan req = .ok matched) : matched.Sublist plan := by
  induction plan generalizing matched with
  | nil => simp only [filterRoutes] at h; cases h; exact List.Sublist.refl _
  | cons r rs ih =>
    simp only [filterRoutes] at h
    cases hf : r.filter req with
    | error e => rw [hf] at h; cases h
    | ok b =>
      rw [hf] at h
      cases hrest : filterRoutes rs req with
      | error e => rw [hrest] at h; cases h
      | ok rest =>
        rw [hrest] at h
        cases h
        cases b with
        | true => exact List.Sublist.cons₂ r (ih rest hrest)
        | false => exact List.Sublist.cons r (ih rest hrest)

/-- C3. Router soundness: whenever logRequest completes, the buffer of each
route in the plan (table names assumed pairwise distinct, as one table per
route) gains exactly the assembled record when that route's compiled
predicate returned true for the request, and is untouched when it did not. -/
theorem router_soundness {Req R : Type} (request : Req) (logData : R)
    (logPlan : List (CompiledRoute Req)) (st : BatcherState R)
    (now batchIntervalMs maxBatchSize : Nat) (st2 : BatcherState R)
    (hnodup : (logPlan.map (fun r => r.tableName)).Nodup)
    (hrun : logRequest request logData logPlan st now batchIntervalMs maxBatchSize =
      .ok st2) :
    ∀ route ∈ logPlan,
      (route.filter request = .ok true →
        mapGet st2.batches route.tableName =
          some ((mapGet st.batches route.tableName).getD [] ++ [logData])) ∧
      (route.filter request ≠ .ok true →
        mapGet st2.batches route.tableName = mapGet st.batches route.tableName) := by
  intro route hroute
  simp only [logRequest] at hrun
  cases hm : filterRoutes logPlan request with
  | error e => rw [hm] at hrun; cases hrun
  | ok matched =>
    rw [hm] at hrun
    have hrun2 : (if matched.isEmpty then Except.ok st
        else Except.ok
          (addLog st logData matched now batchIntervalMs maxBatchSize).st) =
        Except.ok st2 := hrun
    have hsub := filterRoutes_sublist logPlan request matched hm
    have hmatched_nodup : (matched.map (fun r => r.tableName)).Nodup :=
      (hsub.map (fun r => r.tableName)).nodup hnodup
    by_cases hempty : matched.isEmpty
    · rw [if_pos hempty] at hrun2
      cases hrun2
      have hnil : matched = [] := by
        cases matched with
        | nil => rfl
        | cons a l => cases hempty
      constructor
      · intro htrue
        have := filterRoutes_mem_of_true logPlan request matched hm route hroute htrue
        rw [hnil] at this
        cases this
      · intro _; rfl
    · rw [if_neg hempty] at hrun2
      cases hrun2
      constructor
      · intro htrue
        have hmem := filterRoutes_mem_of_true logPlan request matched hm route hroute htrue
        simpa [addLog] using
          addLog_foldl_get_mem maxBatchSize logData matched (st.batches, [])
            route hmem hmatched_nodup
      · intro hfalse
        have hnotmem : route.tableName ∉ matched.map (fun r => r.tableName) := by
          intro hc
          rcases List.mem_map.mp hc with ⟨rt, hrtmem, hrteq⟩
          have hrtplan : rt ∈ logPlan := hsub.subset hrtmem
          have : rt = route :=
            List.inj_on_of_nodup_map hnodup hrtplan hroute hrteq
          subst this
          exact hfalse (filterRoutes_mem_filter_true logPlan request matched hm rt hrtmem)
        simpa [addLog] using
          addLog_foldl_get_not_mem maxBatchSize logData matched (st.batches, [])
            route.tableName hnotmem

/-- Closed witness for router_soundness: a two-route plan in which only the
first route matches; the record lands in the first buffer only. -/
theorem router_soundness_witness :
    mapGet (BatcherState.batches
      { batches := [("a", [5])], failureCounts := [], initMemo := [],
        alarmPending := some 10000 : BatcherState Nat }) "a" = some ([] ++ [5]) ∧
    mapGet (BatcherState.batches
      { batches := [("a", [5])], failureCounts := [], initMemo := [],
        alarmPending := some 10000 : BatcherState Nat }) "b" = none := by
  have h := router_soundness (R := Nat) () 5
    [⟨"a", fun _ => Except.ok true⟩, ⟨"b", fun _ => Except.ok false⟩]
    { batches := [], failureCounts := [], initMemo := [], alarmPending := none }
    0 10000 200
    { batches := [("a", [5])], failureCounts := [], initMemo := [],
      alarmPending := some 10000 }
    (by simp) (by rfl)
  constructor
  · simpa using (h ⟨"a", fun _ => Except.ok true⟩ (List.mem_cons_self _ _)).1 rfl
  · have hb := (h ⟨"b", fun _ => Except.ok false⟩
      (List.mem_cons_of_mem _ (List.mem_cons_self _ _))).2 (by simp)
    simpa using hb

/-! ### JavaScript values and the request shape seen by the filter engine

JS numbers are modelled as rationals; none of the claims below depends on
floating-point behaviour. A missing header reads null (Headers.get), a
missing cookie or cf annotation reads undefined (object property access). -/

inductive JSVal where
  | vstr (s : String)
  | vnum (q : Rat)
  | vbool (b : Bool)
  | vnull
  | vundefined
deriving Repr, DecidableEq

structure UrlParts where
  hostname : String
  pathname : String
  search : String
deriving Repr, DecidableEq

structure BotMgmt where
  score : JSVal
  verifiedBot : JSVal
  ja3Hash : JSVal
  corporateProxy : JSVal
deriving Repr, DecidableEq

structure TlsClientAuthInfo where
  certVerified : JSVal
deriving Repr, DecidableEq

structure CfInfo where
  asn : JSVal
  asOrganization : JSVal
  clientTcpRtt : JSVal
  colo : JSVal
  continent : JSVal
  country : JSVal
  city : JSVal
  region : JSVal
  regionCode : JSVal
  postalCode : JSVal
  timezone : JSVal
  latitude : JSVal
  longitude : JSVal
  httpProtocol : JSVal
  requestPriority : JSVal
  tlsCipher : JSVal
  tlsVersion : JSVal
  clientAcceptEncoding : JSVal
  threatScore : JSVal
  tlsClientAuth : Option TlsClientAuthInfo
  botManagement : Option BotMgmt
deriving Repr, DecidableEq

/-- The request contract (section 6 of the spec): method, absolute url (with
its parse result: none models a url string on which the URL constructor
throws), headers (keys stored lowercase), and the cf annotation bag. -/
structure JsRequest where
  method : String
  redirect : String
  url : String
  urlParsed : Option UrlParts
  headers : List (String × String)
  cf : Option CfInfo
deriving Repr, DecidableEq

/-- request.headers.get(name): case-insensitive, null when absent. -/
def headersGet (req : JsRequest) (name : String) : JSVal :=
  match mapGet req.headers name.toLower with
  | some v => .vstr v
  | none => .vnull

/-- Cookie parsing shared by filterManager getCookies and the logger:
split on semicolons, split each part on the first equals sign, keep entries
whose raw key is non-empty, trim key and value. -/
def parseCookies (req : JsRequest) : List (String × String) :=
  match mapGet req.headers "cookie" with
  | none => []
  | some cookieHeader =>
    (cookieHeader.splitOn ";").foldl (fun acc c =>
      match c.splitOn "=" with
      | [] => acc
      | key :: value =>
        if key = "" then acc
        else mapSet acc key.trim ((String.intercalate "=" value).trim)) []

/-- getCookies(request)[name]: undefined when the cookie is absent. -/
def cookieGet (req : JsRequest) (name : String) : JSVal :=
  match mapGet (parseCookies req) name with
  | some v => .vstr v
  | none => .vundefined

/-! ### Filter operators and the filterable-field schema -/

inductive JsType where
  | tstring
  | tnumber
  | tboolean
deriving Repr, DecidableEq

/-- OPERATORS from src/filter/filterOperators.mjs. equals is strict triple
equality; the string operators require a string subject; the numeric
comparisons require a numeric subject; exists and doesNotExist test for
null or undefined. -/
def jsOperator (op : String) (subject value : JSVal) : Bool :=
  if op = "exists" then !(subject == JSVal.vnull || subject == JSVal.vundefined)
  else if op = "doesNotExist" then subject == JSVal.vnull || subject == JSVal.vundefined
  else if op = "equals" then subject == value
  else if op = "contains" then
    match subject, value with
    | .vstr s, .vstr v => v.isEmpty || 2 ≤ (s.splitOn v).length
    | _, _ => false
  else if op = "startsWith" then
    match subject, value with
    | .vstr s, .vstr v => s.startsWith v
    | _, _ => false
  else if op = "endsWith" then
    match subject, value with
    | .vstr s, .vstr v => s.endsWith v
    | _, _ => false
  else if op = "greaterThan" then
    match subject, value with
    | .vnum s, .vnum v => v < s
    | _, _ => false
  else if op = "lessThan" then
    match subject, value with
    | .vnum s, .vnum v => s < v
    | _, _ => false
  else false

/-- VALID_OPERATORS_BY_TYPE from src/filter/filterOperators.mjs. -/
def validOperators : JsType → List String
  | .tstring => ["equals", "contains", "startsWith", "endsWith", "exists", "doesNotExist"]
  | .tnumber => ["equals", "greaterThan", "lessThan", "exists", "doesNotExist"]
  | .tboolean => ["equals", "exists", "doesNotExist"]

structure FieldSpec where
  ty : JsType
  accessor : JsRequest → UrlParts → JSVal

def cfGet (req : JsRequest) (f : CfInfo → JSVal) : JSVal :=
  match req.cf with
  | none => .vundefined
  | some cf => f cf

def cfBotGet (req : JsRequest) (f : BotMgmt → JSVal) : JSVal :=
  match req.cf with
  | none => .vundefined
  | some cf =>
    match cf.botManagement with
    | none => .vundefined
    | some bm => f bm

/-- FILTERABLE_FIELDS: the typed allowlist of static filter keys with their
accessors (src/filter/filterSchema.mjs). -/
def FILTERABLE_FIELDS : List (String × FieldSpec) := [
  ("request.method", ⟨.tstring, fun req _ => .vstr req.method⟩),
  ("request.redirect", ⟨.tstring, fun req _ => .vstr req.redirect⟩),
  ("header.accept", ⟨.tstring, fun req _ => headersGet req "accept"⟩),
  ("header.content-type", ⟨.tstring, fun req _ => headersGet req "content-type"⟩),
  ("header.user-agent", ⟨.tstring, fun req _ => headersGet req "user-agent"⟩),
  ("header.referer", ⟨.tstring, fun req _ => headersGet req "referer"⟩),
  ("header.cf-ray", ⟨.tstring, fun req _ => headersGet req "cf-ray"⟩),
  ("header.cf-ipcountry", ⟨.tstring, fun req _ => headersGet req "cf-ipcountry"⟩),
  ("header.cf-connecting-ip", ⟨.tstring, fun req _ => headersGet req "cf-connecting-ip"⟩),
  ("header.x-forwarded-for", ⟨.tstring, fun req _ => headersGet req "x-forwarded-for"⟩),
  ("url.hostname", ⟨.tstring, fun _ url => .vstr url.hostname⟩),
  ("url.pathname", ⟨.tstring, fun _ url => .vstr url.pathname⟩),
  ("url.search", ⟨.tstring, fun _ url => .vstr url.search⟩),
  ("cf.asn", ⟨.tnumber, fun req _ => cfGet req (fun cf => cf.asn)⟩),
  ("cf.asOrganization", ⟨.tstring, fun req _ => cfGet req (fun cf => cf.asOrganization)⟩),
  ("cf.clientTcpRtt", ⟨.tnumber, fun req _ => cfGet req (fun cf => cf.clientTcpRtt)⟩),
  ("cf.colo", ⟨.tstring, fun req _ => cfGet req (fun cf => cf.colo)⟩),
  ("cf.continent", ⟨.tstring, fun req _ => cfGet req (fun cf => cf.continent)⟩),
  ("cf.country", ⟨.tstring, fun req _ => cfGet req (fun cf => cf.country)⟩),
  ("cf.city", ⟨.tstring, fun req _ => cfGet req (fun cf => cf.city)⟩),
  ("cf.region", ⟨.tstring, fun req _ => cfGet req (fun cf => cf.region)⟩),
  ("cf.regionCode", ⟨.tstring, fun req _ => cfGet req (fun cf => cf.regionCode)⟩),
  ("cf.postalCode", ⟨.tstring, fun req _ => cfGet req (fun cf => cf.postalCode)⟩),
  ("cf.timezone", ⟨.tstring, fun req _ => cfGet req (fun cf => cf.timezone)⟩),
  ("cf.latitude", ⟨.tstring, fun req _ => cfGet req (fun cf => cf.latitude)⟩),
  ("cf.longitude", ⟨.tstring, fun req _ => cfGet req (fun cf => cf.longitude)⟩),
  ("cf.httpProtocol", ⟨.tstring, fun req _ => cfGet req (fun cf => cf.httpProtocol)⟩),
  ("cf.requestPriority", ⟨.tstring, fun req _ => cfGet req (fun cf => cf.requestPriority)⟩),
  ("cf.tlsCipher", ⟨.tstring, fun req _ => cfGet req (fun cf => cf.tlsCipher)⟩),
  ("cf.tlsVersion", ⟨.tstring, fun req _ => cfGet req (fun cf => cf.tlsVersion)⟩),
  ("cf.clientAcceptEncoding",
    ⟨.tstring, fun req _ => cfGet req (fun cf => cf.clientAcceptEncoding)⟩),
  ("cf.tlsClientAuth.certVerified",
    ⟨.tstring, fun req _ =>
      match req.cf with
      | none => .vundefined
      | some cf =>
        match cf.tlsClientAuth with
        | none => .vundefined
        | some t => t.certVerified⟩),
  ("cf.threatScore", ⟨.tnumber, fun req _ => cfGet req (fun cf => cf.threatScore)⟩),
  ("cf.botManagement.score", ⟨.tnumber, fun req _ => cfBotGet req (fun bm => bm.score)⟩),
  ("cf.botManagement.verifiedBot",
    ⟨.tboolean, fun req _ => cfBotGet req (fun bm => bm.verifiedBot)⟩),
  ("cf.botManagement.ja3Hash",
    ⟨.tstring, fun req _ => cfBotGet req (fun bm => bm.ja3Hash)⟩),
  ("cf.botManagement.corporateProxy",
    ⟨.tboolean, fun req _ => cfBotGet req (fun bm => bm.corporateProxy)⟩)]

/-! ### The filter compiler (src/filter/filterManager.mjs) -/

/-- A rule condition is the JS object of the form (operator: literal);
Object.keys(condition)[0] reads the first entry. A group object conjoins its
rules; the top-level array disjoins its groups; the whole config may be null. -/
abbrev FilterCondition := List (String × JSVal)
abbrev FilterGroup := List (String × FilterCondition)
abbrev FilterConfig := Option (List FilterGroup)

inductive CompileErr where
  | unknownField (key : String)
  | invalidOperator (key : String) (ty : JsType)
deriving Repr, DecidableEq

structure CompiledFilterRule where
  accessor : JsRequest → UrlParts → JSVal
  op : String
  value : JSVal

/-- key.startsWith(pre), computed on the character lists so that concrete
filter configurations reduce definitionally. -/
def strStartsWith (s pre : String) : Bool := pre.data.isPrefixOf s.data

/-- key.substring(n) on the character list. -/
def strDrop (s : String) (n : Nat) : String := String.mk (s.data.drop n)

/-- Compile one rule: resolve the dynamic header/cookie prefixes or look the
key up in FILTERABLE_FIELDS (unknown key throws), then check the operator
against the field type (invalid or missing operator throws). -/
def compileRule (key : String) (condition : FilterCondition) :
    Except CompileErr CompiledFilterRule :=
  let resolved : Except CompileErr (JsType × (JsRequest → UrlParts → JSVal)) :=
    if strStartsWith key "header:" then
      .ok (JsType.tstring, fun req _ => headersGet req (strDrop key 7))
    else if strStartsWith key "cookie:" then
      .ok (JsType.tstring, fun req _ => cookieGet req (strDrop key 7))
    else
      match mapGet FILTERABLE_FIELDS key with
      | some field => .ok (field.ty, field.accessor)
      | none => .error (.unknownField key)
  match resolved with
  | .error e => .error e
  | .ok (ty, accessor) =>
    match condition.head? with
    | some (op, value) =>
      if (validOperators ty).contains op then .ok ⟨accessor, op, value⟩
      else .error (.invalidOperator key ty)
    | none => .error (.invalidOperator key ty)

def compileGroup (group : FilterGroup) : Except CompileErr (List CompiledFilterRule) :=
  group.mapM (fun r => compileRule r.1 r.2)

/-- A compiled filter function: the constant-true function for an empty or
null config, the deny-all constant-false function produced by the catch in
createFilter, or the compiled groups (whose evaluation parses the URL once). -/
inductive CompiledFilter where
  | constTrue
  | constFalse
  | groupList (gs : List (List CompiledFilterRule))

/-- compileFilters: eager compilation of every group (Array.prototype.map
runs immediately), throwing on the first bad rule. -/
def compileFilters (filterGroups : FilterConfig) : Except CompileErr CompiledFilter :=
  match filterGroups with
  | none => .ok .constTrue
  | some [] => .ok .constTrue
  | some groups => (groups.mapM compileGroup).map .groupList

/-- createFilter: compile, and on any compile error log and degrade to the
deny-all predicate instead of throwing. -/
def createFilter (filterConfig : FilterConfig) : CompiledFilter :=
  match compileFilters filterConfig with
  | .ok f => f
  | .error _ => .constFalse

def evalRule (rule : CompiledFilterRule) (req : JsRequest) (url : UrlParts) : Bool :=
  jsOperator rule.op (rule.accessor req url) rule.value

/-- Run a compiled filter on a request. The compiled group function parses
the URL once per invocation (new URL(request.url)); on an unparseable URL
that constructor throws, which the error value models. The two constant
functions never touch the URL. -/
def evalCompiledFilter (f : CompiledFilter) (req : JsRequest) : Except Unit Bool :=
  match f with
  | .constTrue => .ok true
  | .constFalse => .ok false
  | .groupList gs =>
    match req.urlParsed with
    | none => .error ()
    | some url => .ok (gs.any (fun g => g.all (fun rule => evalRule rule req url)))

/-- C6. A filter configuration whose compilation fails (unknown static field
key, or an operator invalid for the field's declared type) makes
createFilter return the deny-all predicate, which evaluates to false on
every request; createFilter itself catches the compile error and is a total
function. -/
theorem createFilter_deny_all (cfg : FilterConfig) (e : CompileErr)
    (h : compileFilters cfg = .error e) :
    createFilter cfg = CompiledFilter.constFalse ∧
    ∀ req, evalCompiledFilter (createFilter cfg) req = .ok false := by
  constructor
  · simp [createFilter, h]
  · intro req
    simp [createFilter, h, evalCompiledFilter]

/-- Closed witness for createFilter_deny_all: an unknown static field key,
evaluated on a request whose URL does not even parse. -/
theorem createFilter_deny_all_witness :
    createFilter (some [[("bogus.key", [("equals", JSVal.vstr "x")])]]) =
      CompiledFilter.constFalse ∧
    evalCompiledFilter
      (createFilter (some [[("bogus.key", [("equals", JSVal.vstr "x")])]]))
      { method := "GET", redirect := "follow", url := "not a url",
        urlParsed := none, headers := [], cf := none } = .ok false := by
  have h := createFilter_deny_all
    (some [[("bogus.key", [("equals", JSVal.vstr "x")])]])
    (CompileErr.unknownField "bogus.key") (by rfl)
  exact ⟨h.1, h.2 _⟩

/-! ### The worker entrypoint log method (src/worker.mjs, src/logger.mjs) -/

/-- Shallow embedding of sendLog: its whole body, record assembly
(createLogData) included, sits inside try/catch, and the addLog RPC is
invoked without await, so the promise sendLog hands to ctx.waitUntil always
resolves whatever the assembly or dispatch outcome. -/
def sendLog {R : Type} (assemblyOutcome : Except Unit R) (dispatchOk : Bool) :
    Except Unit Unit :=
  match assemblyOutcome, dispatchOk with
  | .error _, _ => .ok ()
  | .ok _, _ => .ok ()

/-- Shallow embedding of the worker entrypoint log(request, data) given the
compiled plan: logRequest first runs every compiled route predicate
synchronously, with no try/catch around the evaluation, so a throwing
predicate rejects toward the caller; when no route matches it returns,
otherwise it schedules sendLog. -/
def log {Req R : Type} (logPlan : List (CompiledRoute Req)) (request : Req)
    (assemblyOutcome : Except Unit R) (dispatchOk : Bool) : Except Unit Unit :=
  match filterRoutes logPlan request with
  | .error e => .error e
  | .ok matchedRoutes =>
    if matchedRoutes.isEmpty then .ok ()
    else sendLog assemblyOutcome dispatchOk

/-- C5 counterexample. A route whose filter configuration is non-empty
compiles to a predicate that begins with new URL(request.url); on a request
whose url does not parse, that predicate throws inside logRequest, outside
every try/catch, and log rejects toward the caller even though assembly and
dispatch would have succeeded. -/
theorem log_throws_counterexample :
    log
      [⟨"t1", evalCompiledFilter (createFilter
        (some [[("header:x-ab-test-group", [("equals", JSVal.vstr "B")])]]))⟩]
      { method := "GET", redirect := "follow", url := "no scheme",
        urlParsed := none, headers := [], cf := none }
      (Except.ok (0 : Nat)) true = .error () := by
  rfl

theorem filterRoutes_isOk_of_filters_ok {Req : Type} (plan : List (CompiledRoute Req))
    (req : Req) (h : ∀ rt ∈ plan, ∃ b, rt.filter req = .ok b) :
    ∃ matched, filterRoutes plan req = .ok matched := by
  induction plan with
  | nil => exact ⟨[], rfl⟩
  | cons r rs ih =>
    obtain ⟨b, hb⟩ := h r (List.mem_cons_self _ _)
    obtain ⟨rest, hrest⟩ := ih (fun rt hrt => h rt (List.mem_cons_of_mem _ hrt))
    exact ⟨if b then r :: rest else rest, by simp [filterRoutes, hb, hrest]⟩

/-- C5 amended. log(request, data) completes without throwing whenever every
compiled route predicate evaluates without throwing on the request (for
instance whenever the request URL parses, or every route filter is
constant); failures during record assembly or dispatch to the batcher are
never surfaced, since sendLog catches the former and does not await the
latter. Predicate evaluation itself sits outside any try/catch. -/
theorem log_no_throw_of_filters_ok {Req R : Type} (logPlan : List (CompiledRoute Req))
    (request : Req) (assemblyOutcome : Except Unit R) (dispatchOk : Bool)
    (h : ∀ rt ∈ logPlan, ∃ b, rt.filter request = .ok b) :
    log logPlan request assemblyOutcome dispatchOk = .ok () := by
  obtain ⟨matched, hm⟩ := filterRoutes_isOk_of_filters_ok logPlan request h
  cases assemblyOutcome <;> by_cases he : matched.isEmpty <;>
    simp [log, hm, he, sendLog]

/-- Closed witness for log_no_throw_of_filters_ok: a matching-capable route
on a parseable request, with a failing assembly and a failing dispatch. -/
theorem log_no_throw_of_filters_ok_witness :
    log
      [⟨"t1", evalCompiledFilter (createFilter
        (some [[("header:x-ab-test-group", [("equals", JSVal.vstr "B")])]]))⟩]
      { method := "GET", redirect := "follow", url := "https://example.com/",
        urlParsed := some ⟨"example.com", "/", ""⟩, headers := [], cf := none }
      (Except.error () : Except Unit Nat) false = .ok () := by
  exact log_no_throw_of_filters_ok _ _ _ _
    (by
      intro rt hrt
      rcases List.mem_singleton.mp hrt with rfl
      exact ⟨false, rfl⟩)

/-! ### CRC32 (src/lib/crc32.js) and the sampling buckets (src/logger.mjs)

Strings are modelled as their UTF-16 code-unit lists (charCodeAt); the and
with 0xFF in the table index is the mod-256 below; the unsigned right shifts
are the divisions; the initial and final xor with the all-ones word model
the signed-complement idiom of the source. -/

/-- One round of the table build: shift right, xor the polynomial 0xEDB88320
when the low bit was set. -/
def crcRound (c : Nat) : Nat :=
  if c % 2 = 1 then Nat.xor 0xEDB88320 (c / 2) else c / 2

/-- crcTable[n]: eight rounds (computed on demand; the source precomputes
the table once at module load, which is observationally the same). -/
def crcTableEntry (n : Nat) : Nat :=
  crcRound (crcRound (crcRound (crcRound (crcRound (crcRound (crcRound (crcRound n)))))))

/-- The per-character loop of crc32. -/
def crc32Aux : Nat → List Nat → Nat
  | crc, [] => crc
  | crc, c :: rest =>
    crc32Aux (Nat.xor (crc / 256) (crcTableEntry ((Nat.xor crc c) % 256))) rest

/-- crc32(str): the 32-bit unsigned CRC-32/ISO-HDLC value. -/
def crc32 (s : List Nat) : Nat :=
  Nat.xor (crc32Aux 0xFFFFFFFF s) 0xFFFFFFFF


/-- Decimal digits of n, least significant first, via an explicit fuel bound
so that concrete values reduce definitionally. -/
def digitsAux : Nat → Nat → List Nat
  | 0, _ => []
  | fuel + 1, n => if n = 0 then [] else (n % 10) :: digitsAux fuel (n / 10)

/-- String(n): the decimal rendering, most significant digit first (JS
renders 0 as the one-character string 0). -/
def jsDecimalDigits (n : Nat) : List Nat :=
  if n = 0 then [0] else (digitsAux n n).reverse

/-- parseInt of a digit string. -/
def digitsVal (ds : List Nat) : Nat := ds.foldl (fun a d => a * 10 + d) 0

/-- parseInt(String(n).slice(-1), 10): the last character parsed. -/
def jsSample10 (n : Nat) : Nat :=
  digitsVal ((jsDecimalDigits n).drop ((jsDecimalDigits n).length - 1))

/-- parseInt(String(n).slice(-2), 10): the last two characters parsed (the
whole string when it has a single digit). -/
def jsSample100 (n : Nat) : Nat :=
  digitsVal ((jsDecimalDigits n).drop ((jsDecimalDigits n).length - 2))


theorem digitsAux_eq (fuel n : Nat) (h : n ≤ fuel) : digitsAux fuel n = Nat.digits 10 n := by
  induction fuel generalizing n with
  | zero =>
    have : n = 0 := Nat.le_zero.mp h
    subst this; simp [digitsAux]
  | succ fuel ih =>
    by_cases hn : n = 0
    · subst hn; simp [digitsAux]
    · have hpos : 0 < n := Nat.pos_of_ne_zero hn
      rw [digitsAux, if_neg hn, Nat.digits_def' (by norm_num : 1 < 10) hpos]
      congr 1
      exact ih (n / 10) (by
        have : n / 10 < n := Nat.div_lt_self hpos (by norm_num)
        omega)

theorem jsDecimalDigits_eq (n : Nat) :
    jsDecimalDigits n = if n = 0 then [0] else (Nat.digits 10 n).reverse := by
  by_cases h : n = 0
  · simp [jsDecimalDigits, h]
  · simp [jsDecimalDigits, h, digitsAux_eq n n le_rfl]

theorem jsSample10_eq_mod (n : Nat) : jsSample10 n = n % 10 := by
  by_cases h : n = 0
  · subst h; rfl
  · have hd := Nat.digits_def' (by norm_num : 1 < 10) (Nat.pos_of_ne_zero h)
    simp only [jsSample10, jsDecimalDigits_eq, h, if_false, hd, List.reverse_cons,
      List.length_append, List.length_reverse, List.length_cons, List.length_nil]
    have hlen : (Nat.digits 10 (n / 10)).length + (0 + 1) - 1 =
        (Nat.digits 10 (n / 10)).reverse.length := by simp
    rw [hlen, List.drop_left]
    simp [digitsVal]

theorem jsSample100_eq_mod (n : Nat) : jsSample100 n = n % 100 := by
  by_cases h : n = 0
  · subst h; rfl
  · have hd := Nat.digits_def' (by norm_num : 1 < 10) (Nat.pos_of_ne_zero h)
    by_cases h10 : n < 10
    · have hdiv : n / 10 = 0 := Nat.div_eq_of_lt h10
      have hsingle : Nat.digits 10 n = [n % 10] := by rw [hd, hdiv]; simp
      simp only [jsSample100, jsDecimalDigits_eq, h, if_false, hsingle,
        List.reverse_cons, List.reverse_nil, List.nil_append, List.length_cons,
        List.length_nil]
      rw [show (0 + 1 - 2 : Nat) = 0 from rfl, List.drop_zero]
      simp only [digitsVal, List.foldl]
      omega
    · have hpos10 : 0 < n / 10 := Nat.div_pos (Nat.le_of_not_lt h10) (by norm_num)
      have hd2 := Nat.digits_def' (by norm_num : 1 < 10) hpos10
      simp only [jsSample100, jsDecimalDigits_eq, h, if_false, hd, hd2,
        List.reverse_cons, List.append_assoc, List.length_append,
        List.length_reverse, List.length_cons, List.length_nil]
      have hlen : (Nat.digits 10 (n / 10 / 10)).length + (0 + 1 + (0 + 1)) - 2 =
          (Nat.digits 10 (n / 10 / 10)).reverse.length := by simp
      rw [hlen]
      have happ : (Nat.digits 10 (n / 10 / 10)).reverse ++ ([n / 10 % 10] ++ [n % 10]) =
          (Nat.digits 10 (n / 10 / 10)).reverse ++ [n / 10 % 10, n % 10] := by rfl
      rw [happ, List.drop_left]
      simp only [digitsVal, List.foldl]
      omega

/-- sample10 as assembled by createLogData from the connectionHash string. -/
def sample10ofConnectionHash (x : List Nat) : Nat := jsSample10 (crc32 x)

/-- sample100 as assembled by createLogData from the connectionHash string. -/
def sample100ofConnectionHash (x : List Nat) : Nat := jsSample100 (crc32 x)

/-- C9. For every connectionHash string x, sample10 equals the last decimal
digit of the decimal rendering of crc32(x) and lies in [0,9]; sample100
equals the integer formed by the last two digits of that rendering and lies
in [0,99]. Both are functions of x alone, hence deterministic per
connectionHash. -/
theorem sampling_buckets (x : List Nat) :
    sample10ofConnectionHash x = crc32 x % 10 ∧
    sample10ofConnectionHash x ≤ 9 ∧
    sample100ofConnectionHash x = crc32 x % 100 ∧
    sample100ofConnectionHash x ≤ 99 := by
  refine ⟨jsSample10_eq_mod (crc32 x), ?_, jsSample100_eq_mod (crc32 x), ?_⟩
  · rw [sample10ofConnectionHash, jsSample10_eq_mod]; omega
  · rw [sample100ofConnectionHash, jsSample100_eq_mod]; omega

/-! ### The retention pruner (src/filter/pruneRetention.mjs)

The JS Date is an epoch-milliseconds value. Per ECMA-262, setDate(dt2)
rebuilds the time from MakeDay(year, month, dt2) preserving the time of
day, and MakeDay is affine in its date argument; so setDate(getDate() - R)
shifts the epoch by exactly R days whatever getDate returns. The model
therefore takes the day-of-month reader as an arbitrary function and proves
the cutoff independent of it. toISOString is the ISO-8601 rendering (the
worker runtime clock is UTC). -/

def MS_PER_DAY : Nat := 86400000

/-- Gregorian civil date (year, month, day) from days since the epoch. -/
def civilFromDays (z : Nat) : Nat × Nat × Nat :=
  let zz := z + 719468
  let era := zz / 146097
  let doe := zz % 146097
  let yoe := (doe - doe / 1460 + doe / 36524 - doe / 146096) / 365
  let doy := doe - (365 * yoe + yoe / 4 - yoe / 100)
  let mp := (5 * doy + 2) / 153
  let d := doy - (153 * mp + 2) / 5 + 1
  let m := if mp < 10 then mp + 3 else mp - 9
  let y := yoe + era * 400
  (if m ≤ 2 then y + 1 else y, m, d)

def decRender (n : Nat) : List Char := (jsDecimalDigits n).map (fun d => Char.ofNat (48 + d))

def padNum (w n : Nat) : String :=
  String.mk (List.replicate (w - (decRender n).length) '0' ++ decRender n)

/-- Date.prototype.toISOString for epochs in the four-digit-year range. -/
def toISOString (t : Nat) : String :=
  let days := t / MS_PER_DAY
  let rem := t % MS_PER_DAY
  let ymd := civilFromDays days
  padNum 4 ymd.1 ++ "-" ++ padNum 2 ymd.2.1 ++ "-" ++ padNum 2 ymd.2.2 ++ "T" ++
    padNum 2 (rem / 3600000) ++ ":" ++ padNum 2 (rem % 3600000 / 60000) ++ ":" ++
    padNum 2 (rem % 60000 / 1000) ++ "." ++ padNum 3 (rem % 1000) ++ "Z"

/-- Date.prototype.setDate: ECMA MakeDay is affine in the date argument, so
the new epoch moves by (newDate - dayOfMonth t) days. -/
def jsSetDate (dayOfMonth : Int → Int) (t : Int) (newDate : Int) : Int :=
  t + (newDate - dayOfMonth t) * (MS_PER_DAY : Int)

/-- cutoffDate = new Date(now); cutoffDate.setDate(cutoffDate.getDate() - retentionDays). -/
def pruneCutoffEpoch (dayOfMonth : Int → Int) (now : Int) (retentionDays : Nat) : Int :=
  jsSetDate dayOfMonth now (dayOfMonth now - retentionDays)

theorem pruneCutoffEpoch_eq (dayOfMonth : Int → Int) (now : Int) (retentionDays : Nat) :
    pruneCutoffEpoch dayOfMonth now retentionDays =
      now - retentionDays * MS_PER_DAY := by
  simp only [pruneCutoffEpoch, jsSetDate]
  ring

/-- Lexicographic order on code points. SQLite BINARY collation compares the
UTF-8 bytes; on the all-ASCII ISO-8601 strings involved this coincides with
code-point lexicographic order. -/
def charListLt : List Char → List Char → Bool
  | [], [] => false
  | [], _ :: _ => true
  | _ :: _, [] => false
  | a :: as, b :: bs =>
    if a.toNat < b.toNat then true
    else if b.toNat < a.toNat then false
    else charListLt as bs

def sqliteTextLt (a b : String) : Bool := charListLt a.data b.data

structure D1Row where
  receivedAt : String
deriving Repr, DecidableEq

/-- Result of pruneTable: the surviving rows, the prepared DELETE statement,
meta.changes, whether ANALYZE ran, and the resolved value of the returned
promise. -/
structure PruneResult where
  table : List D1Row
  deleteSql : String
  changes : Nat
  analyzed : Bool
  returned : Option Nat
deriving Repr, DecidableEq

/-- Shallow embedding of pruneTable: compute the cutoff by calendar-day
subtraction on the current Date, render it as ISO 8601, run
DELETE FROM tableName WHERE receivedAt < ?1 binding the rendered string
(TEXT comparison), ANALYZE when meta.changes was positive, and fall off the
end of the function: the promise resolves with undefined (none); there is no
return statement. -/
def pruneTable (dayOfMonth : Int → Int) (now : Int) (table : List D1Row)
    (tableName : String) (retentionDays : Nat) : PruneResult :=
  let cutoffTimestamp := toISOString (pruneCutoffEpoch dayOfMonth now retentionDays).toNat
  let kept := table.filter (fun row => !(sqliteTextLt row.receivedAt cutoffTimestamp))
  let changes := table.length - kept.length
  { table := kept,
    deleteSql := "DELETE FROM " ++ tableName ++ " WHERE receivedAt < ?1",
    changes := changes, analyzed := 0 < changes, returned := none }

/-- C7. Retention bound: the cutoff instant the DELETE binds equals
now - retentionDays * 86400000 for every day-of-month reading (the
calendar-day subtraction is exactly a milliseconds subtraction), and after
pruneTable no surviving row has receivedAt earlier (in the TEXT order the
DELETE uses) than the ISO-8601 rendering of that cutoff. -/
theorem retention_bound (dayOfMonth : Int → Int) (now : Int) (table : List D1Row)
    (tableName : String) (retentionDays : Nat) :
    pruneCutoffEpoch dayOfMonth now retentionDays =
      now - retentionDays * MS_PER_DAY ∧
    ∀ row ∈ (pruneTable dayOfMonth now table tableName retentionDays).table,
      sqliteTextLt row.receivedAt
        (toISOString (now - retentionDays * MS_PER_DAY).toNat) = false := by
  refine ⟨pruneCutoffEpoch_eq dayOfMonth now retentionDays, ?_⟩
  intro row hrow
  simp only [pruneTable, List.mem_filter, Bool.not_eq_true',
    pruneCutoffEpoch_eq] at hrow
  exact hrow.2

/-- Closed witness for retention_bound: a 30-day prune at the start of 2026
keeps a fresh row, which indeed is not below the cutoff string. -/
theorem retention_bound_witness :
    sqliteTextLt "2026-01-01T00:00:00.000Z"
      (toISOString ((1767225600000 : Int) - 30 * MS_PER_DAY).toNat) = false := by
  have h := (retention_bound (fun _ => 0) 1767225600000
    [⟨"1970-01-01T00:00:00.000Z"⟩, ⟨"2026-01-01T00:00:00.000Z"⟩] "requestlogs" 30).2
  exact h ⟨"2026-01-01T00:00:00.000Z"⟩ (by decide)

/-- C8. pruneTable resolves with undefined: its body has no return statement
(its doc comment even declares Promise of void), although the caller
runRetentionCheck assigns the resolved value to rowsDeleted for the
dataPruning metric and the diagnostics summary. At this input the DELETE
removes one row, yet the function returns none rather than 1. -/
theorem pruneTable_returns_undefined :
    (pruneTable (fun _ => 0) 1767225600000
      [⟨"1970-01-01T00:00:00.000Z"⟩, ⟨"2026-01-01T00:00:00.000Z"⟩]
      "requestlogs" 30).changes = 1 ∧
    (pruneTable (fun _ => 0) 1767225600000
      [⟨"1970-01-01T00:00:00.000Z"⟩, ⟨"2026-01-01T00:00:00.000Z"⟩]
      "requestlogs" 30).returned = none := by
  decide

end Divortio
